import Mathlib

/-!
A shallow embedding of the directory-scanner utility (files `main.py`,
`scanner/core.py`, `scanner/report.py`, `scanner/token_counter.py`,
`scanner/utils.py`) in Lean 4.

Modelling conventions:
* A filesystem is a tree of entries (`Entry` / `EntryList`, a mutual pair so
  that all traversals are structural and kernel-computable).  A regular file
  carries the data the program can observe about it: the OS-reported MIME
  type for its path (`mimetypes.guess_type`, an environment table outside the
  repository, hence a per-file field), the result of reading its raw bytes
  (`open(path, "rb")`; `none` models an `OSError`), and the result of reading
  it as text with `errors="ignore"` (`Except.error msg` models an
  `OSError`/`UnicodeDecodeError` whose rendered message is `msg`).
* Paths are lists of components; `Path.parts` of a discovered file is the
  scanned root's components followed by the components below the root.
* Python dictionaries built by the program are association lists in insertion
  order; Python's stable `sorted` is `List.insertionSort` (the stable sort).
* `str.lower` is modelled by `pyLower` (ASCII lowercasing) and string
  comparison by code-point lexicographic order (`pyStrLt`/`pyStrLe`), both
  kernel-computable; all names in the static tables and in the concrete
  instances below are ASCII.
-/

/-- Python whitespace (`str.split()` / `str.strip()` / `re \s`): ASCII
whitespace, the C1 separators, and the Unicode space characters. -/
def pyIsSpace (c : Char) : Bool :=
  c = ' ' || c = '\t' || c = '\n' || c = '\r' ||
  c.val = 0x0b || c.val = 0x0c || (0x1c ≤ c.val && c.val ≤ 0x1f) ||
  c.val = 0x85 || c.val = 0xa0 || c.val = 0x1680 ||
  (0x2000 ≤ c.val && c.val ≤ 0x200a) || c.val = 0x2028 || c.val = 0x2029 ||
  c.val = 0x202f || c.val = 0x205f || c.val = 0x3000

/-- ASCII lowercasing of one character (`str.lower`; every name in the static
tables and the concrete filesystems below is ASCII). -/
def asciiLower (c : Char) : Char :=
  if 'A' ≤ c && c ≤ 'Z' then Char.ofNat (c.toNat + 32) else c

/-- `str.lower` (kernel-computable replacement for `String.toLower`). -/
def pyLower (s : String) : String :=
  String.mk (s.toList.map asciiLower)

/-- `str.startswith` (kernel-computable replacement for `String.startsWith`). -/
def pyStartsWith (s pre : String) : Bool :=
  pre.toList.isPrefixOf s.toList

/-- `pathlib.PurePath.suffix` of a file name: the substring from the last dot,
provided that dot is neither the first nor the last character; `""` otherwise. -/
def pySuffix (name : String) : String :=
  let cs := name.toList
  match ((List.range cs.length).filter (fun i => cs.getD i ' ' == '.')).getLast? with
  | some i => if 0 < i && i < cs.length - 1 then String.mk (cs.drop i) else ""
  | none => ""

/-- Code-point lexicographic strict comparison of character lists: Python `<`
on `str` (kernel-computable; Mathlib's iterator-based `String.LT'` does not
reduce). -/
def strLtB : List Char → List Char → Bool
  | [], [] => false
  | [], _ :: _ => true
  | _ :: _, [] => false
  | a :: as, b :: bs =>
      if a < b then true else if b < a then false else strLtB as bs

/-- Code-point lexicographic comparison of character lists: Python `<=` on
`str`. -/
def strLeB : List Char → List Char → Bool
  | [], _ => true
  | _ :: _, [] => false
  | a :: as, b :: bs =>
      if a < b then true else if b < a then false else strLeB as bs

/-- Python `s < t` on strings. -/
def pyStrLt (s t : String) : Bool := strLtB s.toList t.toList

/-- Python `s <= t` on strings. -/
def pyStrLe (s t : String) : Bool := strLeB s.toList t.toList

theorem strLeB_cons (a b : Char) (as bs : List Char) :
    strLeB (a :: as) (b :: bs) = true ↔
      (a < b ∨ (a = b ∧ strLeB as bs = true)) := by
  simp only [strLeB]
  rcases lt_trichotomy a b with h | h | h
  · rw [if_pos h]
    simp [h]
  · subst h
    rw [if_neg (lt_irrefl a), if_neg (lt_irrefl a)]
    simp
  · rw [if_neg (asymm h), if_pos h]
    constructor
    · intro hc
      exact absurd hc (by simp)
    · rintro (h2 | ⟨rfl, _⟩)
      · exact absurd h2 (asymm h)
      · exact absurd h (lt_irrefl a)

theorem strLtB_cons (a b : Char) (as bs : List Char) :
    strLtB (a :: as) (b :: bs) = true ↔
      (a < b ∨ (a = b ∧ strLtB as bs = true)) := by
  simp only [strLtB]
  rcases lt_trichotomy a b with h | h | h
  · rw [if_pos h]
    simp [h]
  · subst h
    rw [if_neg (lt_irrefl a), if_neg (lt_irrefl a)]
    simp
  · rw [if_neg (asymm h), if_pos h]
    constructor
    · intro hc
      exact absurd hc (by simp)
    · rintro (h2 | ⟨rfl, _⟩)
      · exact absurd h2 (asymm h)
      · exact absurd h (lt_irrefl a)

theorem strLeB_refl : ∀ as : List Char, strLeB as as = true
  | [] => rfl
  | a :: as => by
      rw [strLeB_cons]
      exact Or.inr ⟨rfl, strLeB_refl as⟩

theorem strLeB_total : ∀ as bs : List Char,
    strLeB as bs = true ∨ strLeB bs as = true
  | [], _ => Or.inl rfl
  | _ :: _, [] => Or.inr rfl
  | a :: as, b :: bs => by
      rcases lt_trichotomy a b with h | h | h
      · exact Or.inl ((strLeB_cons a b as bs).mpr (Or.inl h))
      · subst h
        rcases strLeB_total as bs with ht | ht
        · exact Or.inl ((strLeB_cons a a as bs).mpr (Or.inr ⟨rfl, ht⟩))
        · exact Or.inr ((strLeB_cons a a bs as).mpr (Or.inr ⟨rfl, ht⟩))
      · exact Or.inr ((strLeB_cons b a bs as).mpr (Or.inl h))

theorem strLeB_trans : ∀ as bs cs : List Char,
    strLeB as bs = true → strLeB bs cs = true → strLeB as cs = true
  | [], _, _, _, _ => rfl
  | a :: as, [], _, hab, _ => by simp [strLeB] at hab
  | _ :: _, _ :: _, [], _, hbc => by simp [strLeB] at hbc
  | a :: as, b :: bs, c :: cs, hab, hbc => by
      rw [strLeB_cons] at hab hbc ⊢
      rcases hab with h1 | ⟨rfl, h1⟩ <;> rcases hbc with h2 | ⟨rfl, h2⟩
      · exact Or.inl (h1.trans h2)
      · exact Or.inl h1
      · exact Or.inl h2
      · exact Or.inr ⟨rfl, strLeB_trans as bs cs h1 h2⟩

theorem strLtB_trans : ∀ as bs cs : List Char,
    strLtB as bs = true → strLtB bs cs = true → strLtB as cs = true
  | [], _, _, _, _ => by
      rename_i bs cs hab hbc
      cases bs with
      | nil => exact absurd hab (by simp [strLtB])
      | cons b bs' =>
          cases cs with
          | nil => exact absurd hbc (by simp [strLtB])
          | cons c cs' => rfl
  | a :: as, [], _, hab, _ => by simp [strLtB] at hab
  | _ :: _, _ :: _, [], _, hbc => by simp [strLtB] at hbc
  | a :: as, b :: bs, c :: cs, hab, hbc => by
      rw [strLtB_cons] at hab hbc ⊢
      rcases hab with h1 | ⟨rfl, h1⟩ <;> rcases hbc with h2 | ⟨rfl, h2⟩
      · exact Or.inl (h1.trans h2)
      · exact Or.inl h1
      · exact Or.inl h2
      · exact Or.inr ⟨rfl, strLtB_trans as bs cs h1 h2⟩

theorem strLtB_le : ∀ as bs : List Char,
    strLtB as bs = true → strLeB as bs = true
  | [], _, _ => rfl
  | a :: as, [], hab => by simp [strLtB] at hab
  | a :: as, b :: bs, hab => by
      rw [strLtB_cons] at hab
      rw [strLeB_cons]
      rcases hab with h | ⟨rfl, h⟩
      · exact Or.inl h
      · exact Or.inr ⟨rfl, strLtB_le as bs h⟩

theorem strLtB_trichotomy : ∀ as bs : List Char,
    strLtB as bs = true ∨ as = bs ∨ strLtB bs as = true
  | [], [] => Or.inr (Or.inl rfl)
  | [], _ :: _ => Or.inl rfl
  | _ :: _, [] => Or.inr (Or.inr rfl)
  | a :: as, b :: bs => by
      rcases lt_trichotomy a b with h | h | h
      · exact Or.inl ((strLtB_cons a b as bs).mpr (Or.inl h))
      · subst h
        rcases strLtB_trichotomy as bs with ht | ht | ht
        · exact Or.inl ((strLtB_cons a a as bs).mpr (Or.inr ⟨rfl, ht⟩))
        · exact Or.inr (Or.inl (by rw [ht]))
        · exact Or.inr (Or.inr ((strLtB_cons a a bs as).mpr (Or.inr ⟨rfl, ht⟩)))
      · exact Or.inr (Or.inr ((strLtB_cons b a bs as).mpr (Or.inl h)))

theorem string_toList_inj {s t : String} (h : s.toList = t.toList) : s = t := by
  cases s
  cases t
  exact congrArg String.mk h

theorem pyStrLe_refl (s : String) : pyStrLe s s = true :=
  strLeB_refl s.toList

theorem pyStrLe_total (s t : String) :
    pyStrLe s t = true ∨ pyStrLe t s = true :=
  strLeB_total s.toList t.toList

theorem pyStrLe_trans {s t u : String} (h1 : pyStrLe s t = true)
    (h2 : pyStrLe t u = true) : pyStrLe s u = true :=
  strLeB_trans s.toList t.toList u.toList h1 h2

theorem pyStrLt_trans {s t u : String} (h1 : pyStrLt s t = true)
    (h2 : pyStrLt t u = true) : pyStrLt s u = true :=
  strLtB_trans s.toList t.toList u.toList h1 h2

theorem pyStrLt_le {s t : String} (h : pyStrLt s t = true) :
    pyStrLe s t = true :=
  strLtB_le s.toList t.toList h

theorem pyStrLt_trichotomy (s t : String) :
    pyStrLt s t = true ∨ s = t ∨ pyStrLt t s = true := by
  rcases strLtB_trichotomy s.toList t.toList with h | h | h
  · exact Or.inl h
  · exact Or.inr (Or.inl (string_toList_inj h))
  · exact Or.inr (Or.inr h)

/-- `SKIP_DIRS` from `main.py`. -/
def SKIP_DIRS : List String :=
  [".git", ".venv", "__pycache__", "node_modules", ".idea", ".vscode",
   ".DS_Store", "LICENSE", "uv.lock", ".python-version", ".env", ".pytest_cache"]

/-- `text_extensions` from `is_text_file` in `main.py`. -/
def TEXT_EXTENSIONS : List String :=
  [".txt", ".md", ".py", ".js", ".html", ".css", ".json", ".xml", ".yml",
   ".yaml", ".ini", ".cfg", ".conf", ".log", ".csv", ".sql", ".sh", ".bat",
   ".ps1", ".rb", ".go", ".java", ".cpp", ".c", ".h", ".php", ".pl", ".r",
   ".scala", ".kt", ".swift", ".ts", ".jsx", ".tsx", ".vue", ".svelte",
   ".sass", ".scss", ".less", ".dockerfile", ".gitignore", ".env", ".toml",
   ".lock"]

/-- `ext_mapping` from `get_file_extension_for_markdown` in `main.py`. -/
def EXT_MAPPING : List (String × String) :=
  [(".py", "python"), (".js", "javascript"), (".ts", "typescript"),
   (".html", "html"), (".css", "css"), (".scss", "scss"), (".sass", "sass"),
   (".json", "json"), (".xml", "xml"), (".yml", "yaml"), (".yaml", "yaml"),
   (".sql", "sql"), (".sh", "bash"), (".bat", "batch"), (".ps1", "powershell"),
   (".rb", "ruby"), (".go", "go"), (".java", "java"), (".cpp", "cpp"),
   (".c", "c"), (".h", "c"), (".php", "php"), (".pl", "perl"), (".r", "r"),
   (".scala", "scala"), (".kt", "kotlin"), (".swift", "swift"),
   (".jsx", "jsx"), (".tsx", "tsx"), (".vue", "vue"),
   (".dockerfile", "dockerfile"), (".md", "markdown"), (".toml", "toml")]

/-- `TokenCounter`: `encoding` is the optional tiktoken encoder
(`none` when tiktoken is unavailable or `get_encoding` failed); the encoder
itself may fail on a given text (`none` models a swallowed exception). -/
structure TokenCounter where
  encoding : Option (String → Option Nat)

/-- `TokenCounter.count_words`: `len(text.split())` — the number of maximal
nonempty runs between whitespace characters. -/
def TokenCounter.count_words (text : String) : Nat :=
  ((List.splitOnP pyIsSpace text.toList).filter (fun w => !w.isEmpty)).length

/-- `TokenCounter.count_characters`: `len(text)`. -/
def TokenCounter.count_characters (text : String) : Nat :=
  text.length

/-- `TokenCounter.count_characters_no_spaces`: `len(re.sub(r"\s", "", text))`. -/
def TokenCounter.count_characters_no_spaces (text : String) : Nat :=
  (text.toList.filter (fun c => !pyIsSpace c)).length

/-- `TokenCounter.estimate_gpt_tokens`: `len(text) // 4`. -/
def TokenCounter.estimate_gpt_tokens (text : String) : Nat :=
  text.length / 4

/-- `TokenCounter.count_gpt_tokens`: returns `None` unless an encoding is
present and the text is nonempty (`if self.encoding and text`); a failing
encoder also yields `None`. -/
def TokenCounter.count_gpt_tokens (tc : TokenCounter) (text : String) : Option Nat :=
  match tc.encoding with
  | some enc => if text = "" then none else enc text
  | none => none

/-- `TokenCounter.get_all_counts`: the four baseline counters in insertion
order, plus `"gpt_tokens"` appended when `count_gpt_tokens` returns a value. -/
def TokenCounter.get_all_counts (tc : TokenCounter) (text : String) : List (String × Nat) :=
  let base := [("words", TokenCounter.count_words text),
               ("characters", TokenCounter.count_characters text),
               ("characters_no_spaces", TokenCounter.count_characters_no_spaces text),
               ("estimated_gpt_tokens", TokenCounter.estimate_gpt_tokens text)]
  match tc.count_gpt_tokens text with
  | some g => base ++ [("gpt_tokens", g)]
  | none => base

/-- What the program can observe of one regular file. -/
structure FileNode where
  mime : Option String
  chunk : Option (List Nat)
  read : Except String String

mutual
inductive Entry where
  | file (name : String) (node : FileNode)
  | dir (name : String) (children : EntryList)
inductive EntryList where
  | nil
  | cons (e : Entry) (rest : EntryList)
end

/-- Build an `EntryList` from a `List Entry` (notation helper for instances). -/
def elist : List Entry → EntryList
  | [] => EntryList.nil
  | e :: es => EntryList.cons e (elist es)

/-- The underlying `List` of an `EntryList`. -/
def EntryList.toList : EntryList → List Entry
  | EntryList.nil => []
  | EntryList.cons e rest => e :: rest.toList

/-- `entry.name`. -/
def Entry.name : Entry → String
  | Entry.file n _ => n
  | Entry.dir n _ => n

/-- `entry.is_file()`. -/
def Entry.isFile : Entry → Bool
  | Entry.file _ _ => true
  | Entry.dir _ _ => false

/-- `mime_type, _ = mimetypes.guess_type(...); mime_type and
mime_type.startswith("text")` as a boolean. -/
def mimeIsText (node : FileNode) : Bool :=
  match node.mime with
  | some m => pyStartsWith m "text"
  | none => false

/-- `is_text_file` (`main.py` / `scanner/utils.py`): text MIME type wins, then
the extension allowlist, then a null-byte sniff of the first 1024 raw bytes;
an `OSError` on the raw read yields `False`. -/
def is_text_file (path : List String) (node : FileNode) : Bool :=
  if mimeIsText node then true
  else if TEXT_EXTENSIONS.contains (pyLower (pySuffix (path.getLastD ""))) then true
  else match node.chunk with
    | some bytes => !((bytes.take 1024).contains 0)
    | none => false

/-- `get_file_extension_for_markdown`: the fence language tag for a path. -/
def get_file_extension_for_markdown (path : List String) : String :=
  (EXT_MAPPING.lookup (pyLower (pySuffix (path.getLastD "")))).getD "text"

/-- One element of the list produced by `scan_directory`:
`(file_path, content, token_counts)`. -/
abbrev ScanRecord := List String × String × List (String × Nat)

/-- `Path.rglob("*")` restricted to regular files: every file anywhere below
the root, paired with its full `parts` (root components followed by the
components below the root). -/
def rglobFiles (base : List String) : EntryList → List (List String × FileNode)
  | EntryList.nil => []
  | EntryList.cons (Entry.file n node) rest =>
      (base ++ [n], node) :: rglobFiles base rest
  | EntryList.cons (Entry.dir n cs) rest =>
      rglobFiles (base ++ [n]) cs ++ rglobFiles base rest

/-- `any(skip in file_path.parts for skip in SKIP_DIRS)`. -/
def skipHit (parts : List String) : Bool :=
  SKIP_DIRS.any (fun s => parts.contains s)

/-- `"[Error reading file: {e}]"`. -/
def errorSentinel (msg : String) : String :=
  "[Error reading file: " ++ msg ++ "]"

/-- The all-zero metrics recorded for a binary file. -/
def zeroCounts : List (String × Nat) :=
  [("words", 0), ("characters", 0), ("characters_no_spaces", 0),
   ("estimated_gpt_tokens", 0)]

/-- The loop body of `scan_directory` for one non-skipped regular file. -/
def scanFile (tc : TokenCounter) (structure_only : Bool)
    (pf : List String × FileNode) : ScanRecord :=
  if structure_only then (pf.1, "", [])
  else if is_text_file pf.1 pf.2 then
    match pf.2.read with
    | Except.ok content => (pf.1, content, tc.get_all_counts content)
    | Except.error e => (pf.1, errorSentinel e, tc.get_all_counts (errorSentinel e))
  else (pf.1, "[Binary file]", zeroCounts)

/-- The `for file_path in directory_path.rglob("*")` loop of `scan_directory`. -/
def scanGo (tc : TokenCounter) (structure_only : Bool) :
    List (List String × FileNode) → List ScanRecord
  | [] => []
  | pf :: rest =>
      if skipHit pf.1 then scanGo tc structure_only rest
      else scanFile tc structure_only pf :: scanGo tc structure_only rest

/-- `scan_directory` (`main.py` / `scanner/core.py`). -/
def scan_directory (rootPath : List String) (entries : EntryList)
    (tc : TokenCounter) (structure_only : Bool) : List ScanRecord :=
  scanGo tc structure_only (rglobFiles rootPath entries)

/-- The sort key relation of `generate_tree`:
`key=lambda x: (x.is_file(), x.name.lower())` under the lexicographic order
Python's `sorted` uses on such pairs (`False < True`). -/
def entLE (a b : Entry) : Prop :=
  (a.isFile = false ∧ b.isFile = true) ∨
  (a.isFile = b.isFile ∧ pyStrLe (pyLower a.name) (pyLower b.name) = true)

instance : DecidableRel entLE := fun a b => by
  unfold entLE; infer_instance

instance : IsTotal Entry entLE := ⟨by
  intro a b
  cases ha : a.isFile <;> cases hb : b.isFile
  · rcases pyStrLe_total (pyLower a.name) (pyLower b.name) with hle | hle
    · exact Or.inl (Or.inr ⟨ha.trans hb.symm, hle⟩)
    · exact Or.inr (Or.inr ⟨hb.trans ha.symm, hle⟩)
  · exact Or.inl (Or.inl ⟨ha, hb⟩)
  · exact Or.inr (Or.inl ⟨hb, ha⟩)
  · rcases pyStrLe_total (pyLower a.name) (pyLower b.name) with hle | hle
    · exact Or.inl (Or.inr ⟨ha.trans hb.symm, hle⟩)
    · exact Or.inr (Or.inr ⟨hb.trans ha.symm, hle⟩)⟩

instance : IsTrans Entry entLE := ⟨by
  intro a b c hab hbc
  rcases hab with ⟨ha, hb⟩ | ⟨hab, hnab⟩ <;> rcases hbc with ⟨hb2, hc⟩ | ⟨hbc, hnbc⟩
  · rw [hb] at hb2; exact absurd hb2 (by simp)
  · exact Or.inl ⟨ha, hbc ▸ hb⟩
  · exact Or.inl ⟨hab ▸ hb2, hc⟩
  · exact Or.inr ⟨hab.trans hbc, pyStrLe_trans hnab hnbc⟩⟩

theorem sizeOf_orderedInsert_entry (a : Entry) (l : List Entry) :
    sizeOf (List.orderedInsert entLE a l) = sizeOf (a :: l) := by
  induction l with
  | nil => simp [List.orderedInsert]
  | cons b t ih =>
      simp only [List.orderedInsert]
      split
      · rfl
      · simp only [List.cons.sizeOf_spec] at *
        omega

theorem sizeOf_insertionSort_entry (l : List Entry) :
    sizeOf (List.insertionSort entLE l) = sizeOf l := by
  induction l with
  | nil => rfl
  | cons a t ih =>
      simp only [List.insertionSort, sizeOf_orderedInsert_entry,
        List.cons.sizeOf_spec]
      omega

theorem sizeOf_filter_le_entry (p : Entry → Bool) (l : List Entry) :
    sizeOf (l.filter p) ≤ sizeOf l := by
  induction l with
  | nil => simp
  | cons a t ih =>
      simp only [List.filter]
      split <;> simp only [List.cons.sizeOf_spec] <;> omega

theorem sizeOf_entryList_toList : ∀ cs : EntryList, sizeOf cs.toList = sizeOf cs
  | EntryList.nil => by simp [EntryList.toList]
  | EntryList.cons e rest => by
      simp only [EntryList.toList, List.cons.sizeOf_spec,
        EntryList.cons.sizeOf_spec, sizeOf_entryList_toList rest]

/-- `sorted([e for e in dir_path.iterdir() if e.name not in SKIP_DIRS], key=...)`:
the entries listed at one directory level, in listing order. -/
def levelEntries (cs : EntryList) : List Entry :=
  List.insertionSort entLE (cs.toList.filter (fun e => !(SKIP_DIRS.contains e.name)))

theorem sizeOf_levelEntries_le (cs : EntryList) : sizeOf (levelEntries cs) ≤ sizeOf cs := by
  have h1 := sizeOf_insertionSort_entry
    (cs.toList.filter (fun e => !(SKIP_DIRS.contains e.name)))
  have h2 := sizeOf_filter_le_entry (fun e => !(SKIP_DIRS.contains e.name)) cs.toList
  have h3 := sizeOf_entryList_toList cs
  unfold levelEntries
  omega

mutual
/-- The inner `walk` of `generate_tree`: the lines contributed below one
directory, given the accumulated indentation prefix. -/
def treeWalk (cs : EntryList) (pre : String) : List String :=
  renderLevel (levelEntries cs) pre
termination_by (sizeOf cs, 1)
decreasing_by
  have h := sizeOf_levelEntries_le cs
  simp only [Prod.lex_def]
  omega

/-- The `for i, entry in enumerate(entries)` loop of `walk`: the connector is
`"└── "` exactly for the final entry, and recursion into a directory extends
the prefix with `"    "` (last sibling) or `"│   "` (non-last). -/
def renderLevel : List Entry → String → List String
  | [], _ => []
  | [Entry.file n _], pre => [pre ++ "└── " ++ n]
  | [Entry.dir n cs], pre => (pre ++ "└── " ++ n) :: treeWalk cs (pre ++ "    ")
  | Entry.file n _ :: e2 :: rest, pre =>
      (pre ++ "├── " ++ n) :: renderLevel (e2 :: rest) pre
  | Entry.dir n cs :: e2 :: rest, pre =>
      (pre ++ "├── " ++ n) ::
        (treeWalk cs (pre ++ "│   ") ++ renderLevel (e2 :: rest) pre)
termination_by es _ => (sizeOf es, 0)
decreasing_by
  · simp only [Prod.lex_def, List.cons.sizeOf_spec, Entry.dir.sizeOf_spec]
    omega
  · simp only [Prod.lex_def, List.cons.sizeOf_spec]
    omega
  · simp only [Prod.lex_def, List.cons.sizeOf_spec, Entry.dir.sizeOf_spec]
    omega
  · simp only [Prod.lex_def, List.cons.sizeOf_spec]
    omega
end

/-- `"\n".join(tree_lines)` (kernel-computable join). -/
def joinLines : List String → String
  | [] => ""
  | [l] => l
  | l :: rest => l ++ "\n" ++ joinLines rest

/-- `generate_tree` (`main.py` / `scanner/core.py`): the root's own name on the
first line, then the recursive walk. -/
def generate_tree (rootName : String) (cs : EntryList) : String :=
  joinLines (rootName :: treeWalk cs "")

/-- `str(path)` for a path given as its components. -/
def pathStr : List String → String
  | [] => ""
  | [p] => p
  | p :: rest => p ++ "/" ++ pathStr rest

/-- `file_path.relative_to(base_path)` rendered as a string, with the
`ValueError` fallback to the full path (`generate_markdown` lines 27-31). -/
def relPathStr (base p : List String) : String :=
  if base.isPrefixOf p then
    match p.drop base.length with
    | [] => "."
    | q :: rest => pathStr (q :: rest)
  else pathStr p

/-- `not content.strip()`: the content is empty or all whitespace. -/
def pyStripEmpty (s : String) : Bool :=
  s.toList.all pyIsSpace

/-- The order `sorted(files_content)` sorts records by: Python compares the
tuples `(Path, str, dict)` lexicographically, i.e. by path string and then by
content (the dict comparison is never reached for records with distinct
paths, which is what the scanner produces). -/
def recLE (a b : ScanRecord) : Prop :=
  pyStrLt (pathStr a.1) (pathStr b.1) = true ∨
  (pathStr a.1 = pathStr b.1 ∧ pyStrLe a.2.1 b.2.1 = true)

instance : DecidableRel recLE := fun a b => by
  unfold recLE; infer_instance

instance : IsTotal ScanRecord recLE := ⟨by
  intro a b
  rcases pyStrLt_trichotomy (pathStr a.1) (pathStr b.1) with h | h | h
  · exact Or.inl (Or.inl h)
  · rcases pyStrLe_total a.2.1 b.2.1 with hc | hc
    · exact Or.inl (Or.inr ⟨h, hc⟩)
    · exact Or.inr (Or.inr ⟨h.symm, hc⟩)
  · exact Or.inr (Or.inl h)⟩

instance : IsTrans ScanRecord recLE := ⟨by
  intro a b c hab hbc
  rcases hab with h | ⟨he, hc⟩ <;> rcases hbc with h2 | ⟨he2, hc2⟩
  · exact Or.inl (pyStrLt_trans h h2)
  · exact Or.inl (he2 ▸ h)
  · exact Or.inl (he ▸ h2)
  · exact Or.inr ⟨he.trans he2, pyStrLe_trans hc hc2⟩⟩

/-- The per-record `for` loop of `generate_markdown`: header, full path, body
(one of the four cases unless `structure_only`), separator; then the rest. -/
def writeSections (basePath : List String) (structure_only : Bool) :
    List ScanRecord → String
  | [] => ""
  | (p, content, _) :: rest =>
      "## 📄 " ++ relPathStr basePath p ++ "\n\n" ++
      "**Full Path:** `" ++ pathStr p ++ "`\n\n" ++
      (if structure_only then "" else
        if content = "[Binary file]" then
          "*This is a binary file and cannot be displayed.*\n\n"
        else if pyStartsWith content "[Error reading file:" then
          "*" ++ content ++ "*\n\n"
        else if pyStripEmpty content then
          "*This file is empty.*\n\n"
        else
          "```" ++ get_file_extension_for_markdown p ++ "\n" ++ content ++
            "\n```\n\n") ++
      "---\n\n" ++ writeSections basePath structure_only rest

/-- The document preamble written before the mode branch. -/
def mdPreamble (total : Nat) (basePath : List String) : String :=
  "# Directory Scan: " ++ basePath.getLastD "" ++ "\n\n" ++
  "**Scanned Path:** `" ++ pathStr basePath ++ "`\n\n" ++
  "**Total Files:** " ++ toString total ++ "\n\n" ++
  "---\n\n"

/-- `generate_markdown` (`main.py` / `scanner/report.py`), modelled as the
string written to the output file.  `baseEntries` is the ambient filesystem
below `basePath`, consulted only by the tree branch (Python re-walks the
directory there). -/
def generate_markdown (files : List ScanRecord) (basePath : List String)
    (baseEntries : EntryList) (structure_only tree_mode : Bool) : String :=
  mdPreamble files.length basePath ++
  (if tree_mode then
    "## 📂 Project Structure\n\n```text\n" ++
      generate_tree (basePath.getLastD "") baseEntries ++ "\n```\n"
  else writeSections basePath structure_only (List.insertionSort recLE files))

/-- Specification-side view of one rendered section (used to state that the
renderer is one section per record). -/
def sectionFor (basePath : List String) (structure_only : Bool)
    (r : ScanRecord) : String :=
  "## 📄 " ++ relPathStr basePath r.1 ++ "\n\n" ++
  "**Full Path:** `" ++ pathStr r.1 ++ "`\n\n" ++
  (if structure_only then "" else
    if r.2.1 = "[Binary file]" then
      "*This is a binary file and cannot be displayed.*\n\n"
    else if pyStartsWith r.2.1 "[Error reading file:" then
      "*" ++ r.2.1 ++ "*\n\n"
    else if pyStripEmpty r.2.1 then
      "*This file is empty.*\n\n"
    else
      "```" ++ get_file_extension_for_markdown r.1 ++ "\n" ++ r.2.1 ++
        "\n```\n\n") ++
  "---\n\n"

/-- The sequence of relative-path section headers the renderer emits for a
record list, in emission order. -/
def sectionHeaders (basePath : List String) (files : List ScanRecord) :
    List String :=
  (List.insertionSort recLE files).map (fun r => relPathStr basePath r.1)

/-- The file paths below a base, computed from names alone (no `FileNode` is
consulted): the path skeleton of `rglobFiles`. -/
def filePaths (base : List String) : EntryList → List (List String)
  | EntryList.nil => []
  | EntryList.cons (Entry.file n _) rest => (base ++ [n]) :: filePaths base rest
  | EntryList.cons (Entry.dir n cs) rest =>
      filePaths (base ++ [n]) cs ++ filePaths base rest

/-- The shape of every line `walk` appends: accumulated prefix, one of the two
box-drawing connectors, and the name of an entry that survived the
skip filter. -/
def LineShape (line : String) : Prop :=
  ∃ p c n, (c = "├── " ∨ c = "└── ") ∧ line = p ++ c ++ n ∧ n ∉ SKIP_DIRS

instance : DecidableEq (Except String String) := fun a b =>
  match a, b with
  | Except.ok x, Except.ok y => decidable_of_iff (x = y) (by simp)
  | Except.error x, Except.error y => decidable_of_iff (x = y) (by simp)
  | Except.ok _, Except.error _ => isFalse (by simp)
  | Except.error _, Except.ok _ => isFalse (by simp)

instance : DecidableEq FileNode := fun a b =>
  decidable_of_iff (a.mime = b.mime ∧ a.chunk = b.chunk ∧ a.read = b.read)
    (by cases a; cases b; simp)

/-- The fixed part of a rendered section before the body: the relative-path
header line and the full-path line. -/
def sectionHead (basePath : List String) (r : ScanRecord) : String :=
  "## 📄 " ++ relPathStr basePath r.1 ++ "\n\n" ++
  "**Full Path:** `" ++ pathStr r.1 ++ "`\n\n"

/-- Concatenation of rendered sections. -/
def concatSections : List String → String
  | [] => ""
  | s :: rest => s ++ concatSections rest

/-- A token counter with no tiktoken encoding available. -/
def tc0 : TokenCounter := ⟨none⟩

/-- A readable ASCII text file containing `"hi there"`. -/
def ndOk : FileNode := ⟨none, some [104, 105], Except.ok "hi there"⟩

/-- A file whose text-mode read raises an error rendered as `"boom"`. -/
def ndErr : FileNode := ⟨none, some [104], Except.error "boom"⟩

/-- A perfectly readable text file whose genuine content is exactly the binary
sentinel string. -/
def ndFakeBinary : FileNode := ⟨none, some [91], Except.ok "[Binary file]"⟩

/-- A perfectly readable text file whose genuine content begins with the error
sentinel. -/
def ndFakeError : FileNode :=
  ⟨none, some [91], Except.ok "[Error reading file: nothing failed]"⟩

/-! ### Basic facts about the scanner loop -/

theorem scanFile_fst (tc : TokenCounter) (so : Bool) (pf : List String × FileNode) :
    (scanFile tc so pf).1 = pf.1 := by
  unfold scanFile
  split
  · rfl
  · split
    · split <;> rfl
    · rfl

theorem scanGo_eq (tc : TokenCounter) (so : Bool) (l : List (List String × FileNode)) :
    scanGo tc so l = (l.filter (fun pf => !skipHit pf.1)).map (scanFile tc so) := by
  induction l with
  | nil => rfl
  | cons pf rest ih =>
      by_cases h : skipHit pf.1
      · simp [scanGo, List.filter, h, ih]
      · simp [scanGo, List.filter, h, ih]

theorem scan_directory_eq (rootPath : List String) (entries : EntryList)
    (tc : TokenCounter) (so : Bool) :
    scan_directory rootPath entries tc so
      = ((rglobFiles rootPath entries).filter (fun pf => !skipHit pf.1)).map
          (scanFile tc so) :=
  scanGo_eq tc so (rglobFiles rootPath entries)

/-- Every path discovered by the recursive glob extends the base path. -/
theorem rglobFiles_prefix :
    ∀ (cs : EntryList) (base : List String) (pf : List String × FileNode),
      pf ∈ rglobFiles base cs → ∃ rest, pf.1 = base ++ rest
  | EntryList.nil, _, _, h => by simp [rglobFiles] at h
  | EntryList.cons (Entry.file n _) rest, base, pf, h => by
      simp only [rglobFiles, List.mem_cons] at h
      rcases h with rfl | h
      · exact ⟨[n], rfl⟩
      · exact rglobFiles_prefix rest base pf h
  | EntryList.cons (Entry.dir n cs2) rest, base, pf, h => by
      simp only [rglobFiles, List.mem_append] at h
      rcases h with h | h
      · rcases rglobFiles_prefix cs2 (base ++ [n]) pf h with ⟨r, hr⟩
        exact ⟨n :: r, by simpa using hr⟩
      · exact rglobFiles_prefix rest base pf h

theorem rglobFiles_fst :
    ∀ (cs : EntryList) (base : List String),
      (rglobFiles base cs).map Prod.fst = filePaths base cs
  | EntryList.nil, _ => rfl
  | EntryList.cons (Entry.file n node) rest, base => by
      simp [rglobFiles, filePaths, rglobFiles_fst rest base]
  | EntryList.cons (Entry.dir n cs2) rest, base => by
      simp [rglobFiles, filePaths, rglobFiles_fst rest base,
        rglobFiles_fst cs2 (base ++ [n])]

theorem filter_fst_comm (p : List String → Bool) :
    ∀ l : List (List String × FileNode),
      ((l.filter (fun pf => p pf.1)).map Prod.fst) = (l.map Prod.fst).filter p
  | [] => rfl
  | pf :: rest => by
      by_cases h : p pf.1
      · simp [List.filter, h, filter_fst_comm p rest]
      · simp [List.filter, h, filter_fst_comm p rest]

theorem skipHit_false_not_mem {parts : List String} (h : skipHit parts = false)
    {s : String} (hs : s ∈ SKIP_DIRS) : s ∉ parts := by
  intro hmem
  have ht : skipHit parts = true := by
    simp only [skipHit, List.any_eq_true]
    exact ⟨s, hs, by simpa using hmem⟩
  rw [ht] at h
  exact absurd h (by simp)

theorem skipHit_true_of_mem {parts : List String} {s : String}
    (hs : s ∈ SKIP_DIRS) (hmem : s ∈ parts) : skipHit parts = true := by
  simp only [skipHit, List.any_eq_true]
  exact ⟨s, hs, by simpa using hmem⟩

theorem entryList_sizeOf_pos (cs : EntryList) : 0 < sizeOf cs := by
  cases cs <;> simp

theorem renderLevel_lines_aux (K : Nat)
    (hrec : ∀ cs2 : EntryList, sizeOf cs2 ≤ K → ∀ pre2 line,
        line ∈ treeWalk cs2 pre2 → LineShape line) :
    ∀ (es : List Entry) (pre : String),
      (∀ e ∈ es, SKIP_DIRS.contains e.name = false) →
      (∀ e ∈ es, sizeOf e ≤ K) →
      ∀ line ∈ renderLevel es pre, LineShape line := by
  intro es
  induction es with
  | nil =>
      intro pre _ _ line hline
      simp [renderLevel] at hline
  | cons e rest ih =>
      intro pre hnames hsz line hline
      have hname : e.name ∉ SKIP_DIRS := by
        have := hnames e (List.mem_cons_self e rest)
        intro hmem
        rw [show SKIP_DIRS.contains e.name = true by simpa using hmem] at this
        exact absurd this (by simp)
      cases rest with
      | nil =>
          cases e with
          | file n node =>
              simp only [renderLevel, List.mem_singleton] at hline
              exact ⟨pre, "└── ", n, Or.inr rfl, hline, hname⟩
          | dir n cs2 =>
              simp only [renderLevel, List.mem_cons] at hline
              rcases hline with rfl | hline
              · exact ⟨pre, "└── ", n, Or.inr rfl, rfl, hname⟩
              · have hsz2 : sizeOf cs2 ≤ K := by
                  have := hsz _ (List.mem_cons_self _ _)
                  simp only [Entry.dir.sizeOf_spec] at this
                  omega
                exact hrec cs2 hsz2 _ line hline
      | cons e2 rest2 =>
          cases e with
          | file n node =>
              simp only [renderLevel, List.mem_cons] at hline
              rcases hline with rfl | hline
              · exact ⟨pre, "├── ", n, Or.inl rfl, rfl, hname⟩
              · exact ih pre (fun x hx => hnames x (List.mem_cons_of_mem _ hx))
                  (fun x hx => hsz x (List.mem_cons_of_mem _ hx)) line
                  (by simpa [renderLevel] using hline)
          | dir n cs2 =>
              simp only [renderLevel, List.mem_cons, List.mem_append] at hline
              rcases hline with rfl | hline | hline
              · exact ⟨pre, "├── ", n, Or.inl rfl, rfl, hname⟩
              · have hsz2 : sizeOf cs2 ≤ K := by
                  have := hsz _ (List.mem_cons_self _ _)
                  simp only [Entry.dir.sizeOf_spec] at this
                  omega
                exact hrec cs2 hsz2 _ line hline
              · exact ih pre (fun x hx => hnames x (List.mem_cons_of_mem _ hx))
                  (fun x hx => hsz x (List.mem_cons_of_mem _ hx)) line
                  (by simpa [renderLevel] using hline)

theorem levelEntries_names (cs : EntryList) :
    ∀ e ∈ levelEntries cs, SKIP_DIRS.contains e.name = false := by
  intro e he
  have hmem : e ∈ cs.toList.filter (fun x => !(SKIP_DIRS.contains x.name)) :=
    ((List.perm_insertionSort entLE _).mem_iff).mp he
  have := (List.mem_filter.mp hmem).2
  simpa using this

theorem levelEntries_sizeOf (cs : EntryList) :
    ∀ e ∈ levelEntries cs, sizeOf e < sizeOf cs := by
  intro e he
  have hmem : e ∈ cs.toList.filter (fun x => !(SKIP_DIRS.contains x.name)) :=
    ((List.perm_insertionSort entLE _).mem_iff).mp he
  have h1 : e ∈ cs.toList := (List.mem_filter.mp hmem).1
  have h2 := List.sizeOf_lt_of_mem h1
  have h3 := sizeOf_entryList_toList cs
  omega

theorem treeWalk_lines :
    ∀ (K : Nat) (cs : EntryList), sizeOf cs ≤ K →
      ∀ pre line, line ∈ treeWalk cs pre → LineShape line := by
  intro K
  induction K with
  | zero =>
      intro cs h
      have := entryList_sizeOf_pos cs
      omega
  | succ k ih =>
      intro cs hcs pre line hline
      rw [treeWalk] at hline
      refine renderLevel_lines_aux k
        (fun cs2 h2 pre2 l2 hl2 => ih cs2 h2 pre2 l2 hl2)
        (levelEntries cs) pre (levelEntries_names cs) ?_ line hline
      intro e he
      have := levelEntries_sizeOf cs e he
      omega

/-! ### Claim theorems -/

/-- C1: in a default-mode scan, every discovered, non-skipped file produces
exactly one record (the scan is the per-file map over the filtered
enumeration, so the walk continues past failures), and a file classified as
text whose read raises an error with message `e` produces the record
`(path, "[Error reading file: e]", get_all_counts of that sentinel)` — the
error text itself is word/char/token counted. -/
theorem scan_directory_error_sentinel (rootPath : List String)
    (entries : EntryList) (tc : TokenCounter) :
    scan_directory rootPath entries tc false
      = ((rglobFiles rootPath entries).filter (fun pf => !skipHit pf.1)).map
          (scanFile tc false)
    ∧ ∀ pf ∈ (rglobFiles rootPath entries).filter (fun pf => !skipHit pf.1),
        ∀ e, is_text_file pf.1 pf.2 = true → pf.2.read = Except.error e →
          scanFile tc false pf
              = (pf.1, errorSentinel e, tc.get_all_counts (errorSentinel e))
            ∧ (pf.1, errorSentinel e, tc.get_all_counts (errorSentinel e))
                ∈ scan_directory rootPath entries tc false := by
  refine ⟨scan_directory_eq rootPath entries tc false, fun pf hpf e htext herr => ?_⟩
  have hfile : scanFile tc false pf
      = (pf.1, errorSentinel e, tc.get_all_counts (errorSentinel e)) := by
    unfold scanFile
    simp [htext, herr]
  refine ⟨hfile, ?_⟩
  rw [scan_directory_eq]
  exact hfile ▸ List.mem_map_of_mem (scanFile tc false) hpf

theorem scan_directory_error_sentinel_witness :
    (["r", "bad.txt"], errorSentinel "boom",
        tc0.get_all_counts (errorSentinel "boom"))
      ∈ scan_directory ["r"]
          (elist [Entry.file "bad.txt" ndErr, Entry.file "good.txt" ndOk])
          tc0 false :=
  ((scan_directory_error_sentinel ["r"]
      (elist [Entry.file "bad.txt" ndErr, Entry.file "good.txt" ndOk]) tc0).2
    (["r", "bad.txt"], ndErr) (by decide) "boom" (by decide) (by decide)).2

/-- C3: a structure-only scan is fully determined by the name skeleton of the
tree (`filePaths` never consults a `FileNode`, so no content is read and no
classification happens), and every record it returns has empty content and an
empty metrics map. -/
theorem structure_only_scan_empty_records (rootPath : List String)
    (entries : EntryList) (tc : TokenCounter) :
    scan_directory rootPath entries tc true
      = ((filePaths rootPath entries).filter (fun p => !skipHit p)).map
          (fun p => (p, "", ([] : List (String × Nat))))
    ∧ ∀ rec ∈ scan_directory rootPath entries tc true,
        rec.2.1 = "" ∧ rec.2.2 = [] := by
  have h1 : scan_directory rootPath entries tc true
      = ((filePaths rootPath entries).filter (fun p => !skipHit p)).map
          (fun p => (p, "", ([] : List (String × Nat)))) := by
    rw [scan_directory_eq]
    have h2 : ((rglobFiles rootPath entries).filter
          (fun pf => !skipHit pf.1)).map (scanFile tc true)
        = ((rglobFiles rootPath entries).filter
            (fun pf => !skipHit pf.1)).map
            ((fun p => (p, "", ([] : List (String × Nat)))) ∘ Prod.fst) := rfl
    rw [h2, ← List.map_map,
      filter_fst_comm (fun p => !skipHit p) (rglobFiles rootPath entries),
      rglobFiles_fst]
  refine ⟨h1, fun rec hrec => ?_⟩
  rw [h1] at hrec
  rcases List.mem_map.mp hrec with ⟨p, _, rfl⟩
  exact ⟨rfl, rfl⟩

/-- C2: no component of any scanned record's path is a skip-set name (in
particular none below the root), every line the tree walk emits consists of a
prefix, a box-drawing connector and a non-skipped entry name, and scanning a
tree containing a nested `.git/config` yields exactly the records for the
other files — zero records referencing `.git`. -/
theorem skip_set_never_in_results (rootPath : List String) (entries : EntryList)
    (tc : TokenCounter) (so : Bool) (s : String) (hs : s ∈ SKIP_DIRS) :
    (∀ rec ∈ scan_directory rootPath entries tc so, s ∉ rec.1)
    ∧ (∀ (cs : EntryList) (pre : String), ∀ line ∈ treeWalk cs pre, LineShape line)
    ∧ ((scan_directory ["root"]
          (elist [Entry.dir ".git" (elist [Entry.file "config" ndOk]),
                  Entry.file "a.txt" ndOk]) tc so).map (fun r => r.1))
        = [["root", "a.txt"]] := by
  refine ⟨fun rec hrec => ?_, fun cs pre line hline =>
    treeWalk_lines (sizeOf cs) cs le_rfl pre line hline, ?_⟩
  · rw [scan_directory_eq] at hrec
    rcases List.mem_map.mp hrec with ⟨pf, hpf, rfl⟩
    have hfilter := List.mem_filter.mp hpf
    have hskip : skipHit pf.1 = false := by
      have := hfilter.2
      simpa using this
    rw [scanFile_fst]
    exact skipHit_false_not_mem hskip hs
  · rw [scan_directory_eq]
    have hmap : ∀ l : List (List String × FileNode),
        (l.map (scanFile tc so)).map (fun r => r.1) = l.map Prod.fst := by
      intro l
      rw [List.map_map]
      exact List.map_congr_left (fun pf _ => scanFile_fst tc so pf)
    rw [hmap]
    decide

theorem skip_set_never_in_results_witness :
    ".git" ∉ (["root", "a.txt"] : List String)
    ∧ ((scan_directory ["root"]
          (elist [Entry.dir ".git" (elist [Entry.file "config" ndOk]),
                  Entry.file "a.txt" ndOk]) tc0 false).map (fun r => r.1))
        = [["root", "a.txt"]] := by
  have h := skip_set_never_in_results ["root"]
    (elist [Entry.dir ".git" (elist [Entry.file "config" ndOk]),
            Entry.file "a.txt" ndOk]) tc0 false ".git" (by decide)
  refine ⟨?_, h.2.2⟩
  have hmem : (["root", "a.txt"], "hi there", tc0.get_all_counts "hi there")
      ∈ scan_directory ["root"]
          (elist [Entry.dir ".git" (elist [Entry.file "config" ndOk]),
                  Entry.file "a.txt" ndOk]) tc0 false := by decide
  exact h.1 _ hmem

/-- C5: the extension allowlist wins regardless of the file's bytes; an
unrecognized suffix with a non-text MIME type and a null byte in the first
1024 raw bytes is binary; and a raw-read error (with non-text MIME type and
unrecognized suffix) is treated as binary, not fatal. -/
theorem is_text_file_classification :
    (∀ (path : List String) (node : FileNode),
        pyLower (pySuffix (path.getLastD "")) ∈ TEXT_EXTENSIONS →
        is_text_file path node = true)
    ∧ (∀ (path : List String) (node : FileNode) (bytes : List Nat),
        mimeIsText node = false →
        pyLower (pySuffix (path.getLastD "")) ∉ TEXT_EXTENSIONS →
        node.chunk = some bytes → (0 : Nat) ∈ bytes.take 1024 →
        is_text_file path node = false)
    ∧ (∀ (path : List String) (node : FileNode),
        mimeIsText node = false →
        pyLower (pySuffix (path.getLastD "")) ∉ TEXT_EXTENSIONS →
        node.chunk = none →
        is_text_file path node = false) := by
  refine ⟨fun path node hsuf => ?_, fun path node bytes hmime hsuf hchunk hzero => ?_,
    fun path node hmime hsuf hchunk => ?_⟩
  · unfold is_text_file
    by_cases hm : mimeIsText node = true
    · rw [if_pos hm]
    · rw [if_neg hm, if_pos (show TEXT_EXTENSIONS.contains
        (pyLower (pySuffix (path.getLastD ""))) = true by simpa using hsuf)]
  · unfold is_text_file
    rw [if_neg (by simp [hmime]), if_neg (show ¬TEXT_EXTENSIONS.contains
      (pyLower (pySuffix (path.getLastD ""))) = true by simpa using hsuf), hchunk]
    have hz : (bytes.take 1024).contains 0 = true := by simpa using hzero
    show (!((bytes.take 1024).contains 0)) = false
    rw [hz]
    rfl
  · unfold is_text_file
    rw [if_neg (by simp [hmime]), if_neg (show ¬TEXT_EXTENSIONS.contains
      (pyLower (pySuffix (path.getLastD ""))) = true by simpa using hsuf), hchunk]

theorem is_text_file_classification_witness :
    is_text_file ["x.py"] ⟨none, some [0, 0, 0], Except.ok ""⟩ = true
    ∧ is_text_file ["x.bin"] ⟨none, some [0], Except.ok ""⟩ = false
    ∧ is_text_file ["x.bin"] ⟨none, none, Except.error "boom"⟩ = false :=
  ⟨is_text_file_classification.1 ["x.py"] _ (by decide),
   is_text_file_classification.2.1 ["x.bin"] _ [0] (by decide) (by decide) rfl
     (by decide),
   is_text_file_classification.2.2 ["x.bin"] _ (by decide) (by decide) rfl⟩

/-- C6 counterexample: with a precise tokenizer available (the optional
tiktoken dependency), `get_all_counts` returns a fifth key `"gpt_tokens"`, so
its key set is not exactly the four baseline keys. -/
theorem get_all_counts_extra_key_counterexample :
    (TokenCounter.get_all_counts ⟨some (fun _ => some 5)⟩ "hi").map Prod.fst
      ≠ ["words", "characters", "characters_no_spaces", "estimated_gpt_tokens"] := by
  decide

/-- C6 (amended): `get_all_counts` always contains the four baseline keys in
order — followed by the single extra `"gpt_tokens"` key exactly when the
precise tokenizer produced a count — and the character count is at least the
character count excluding whitespace. -/
theorem get_all_counts_baseline_keys (tc : TokenCounter) (text : String) :
    ((TokenCounter.get_all_counts tc text).map Prod.fst
        = ["words", "characters", "characters_no_spaces", "estimated_gpt_tokens"]
            ++ (match tc.count_gpt_tokens text with
                | some _ => ["gpt_tokens"]
                | none => []))
    ∧ (TokenCounter.get_all_counts tc text).lookup "characters"
        = some (TokenCounter.count_characters text)
    ∧ (TokenCounter.get_all_counts tc text).lookup "characters_no_spaces"
        = some (TokenCounter.count_characters_no_spaces text)
    ∧ (∀ g, tc.count_gpt_tokens text = some g →
        (TokenCounter.get_all_counts tc text).lookup "gpt_tokens" = some g)
    ∧ (tc.count_gpt_tokens text = none →
        (TokenCounter.get_all_counts tc text).lookup "gpt_tokens" = none)
    ∧ TokenCounter.count_characters_no_spaces text
        ≤ TokenCounter.count_characters text := by
  have hle : TokenCounter.count_characters_no_spaces text
      ≤ TokenCounter.count_characters text := by
    unfold TokenCounter.count_characters_no_spaces TokenCounter.count_characters
    calc (text.toList.filter (fun c => !pyIsSpace c)).length
        ≤ text.toList.length := List.length_filter_le _ _
      _ = text.length := rfl
  unfold TokenCounter.get_all_counts
  cases h : tc.count_gpt_tokens text with
  | some g0 =>
      refine ⟨rfl, rfl, rfl, fun g hg => ?_, fun hn => ?_, hle⟩
      · injection hg with hg'
        rw [hg']
        rfl
      · exact Option.noConfusion hn
  | none =>
      refine ⟨rfl, rfl, rfl, fun g hg => Option.noConfusion hg,
        fun _ => rfl, hle⟩

theorem writeSections_concat (basePath : List String) (so : Bool) :
    ∀ l : List ScanRecord,
      writeSections basePath so l = concatSections (l.map (sectionFor basePath so))
  | [] => rfl
  | (p, c, m) :: rest => by
      simp only [writeSections, sectionFor, concatSections,
        writeSections_concat basePath so rest, String.append_assoc]

/-- C4: in default mode the renderer emits the preamble followed by exactly one
section per record, ordered by ascending path string; each section is the
relative-path header (falling back to the full path when the record is not
under `basePath`), the full path, one of the four body cases, and the
separator. -/
theorem generate_markdown_sections (files : List ScanRecord)
    (basePath : List String) (fs : EntryList) :
    generate_markdown files basePath fs false false
      = mdPreamble files.length basePath
          ++ concatSections
              ((List.insertionSort recLE files).map (sectionFor basePath false))
    ∧ (List.insertionSort recLE files).Pairwise
        (fun a b => pyStrLe (pathStr a.1) (pathStr b.1) = true)
    ∧ List.Perm (List.insertionSort recLE files) files
    ∧ (∀ r : ScanRecord, ∃ b,
        sectionFor basePath false r = sectionHead basePath r ++ b ++ "---\n\n"
        ∧ ((r.2.1 = "[Binary file]"
              ∧ b = "*This is a binary file and cannot be displayed.*\n\n")
          ∨ (r.2.1 ≠ "[Binary file]"
              ∧ pyStartsWith r.2.1 "[Error reading file:" = true
              ∧ b = "*" ++ r.2.1 ++ "*\n\n")
          ∨ (r.2.1 ≠ "[Binary file]"
              ∧ pyStartsWith r.2.1 "[Error reading file:" = false
              ∧ pyStripEmpty r.2.1 = true ∧ b = "*This file is empty.*\n\n")
          ∨ (r.2.1 ≠ "[Binary file]"
              ∧ pyStartsWith r.2.1 "[Error reading file:" = false
              ∧ pyStripEmpty r.2.1 = false
              ∧ b = "```" ++ get_file_extension_for_markdown r.1 ++ "\n"
                    ++ r.2.1 ++ "\n```\n\n")))
    ∧ (∀ p : List String, basePath.isPrefixOf p = false →
        relPathStr basePath p = pathStr p) := by
  refine ⟨?_, ?_, List.perm_insertionSort recLE files, ?_, ?_⟩
  · show mdPreamble files.length basePath
        ++ writeSections basePath false (List.insertionSort recLE files) = _
    rw [writeSections_concat]
  · exact (List.sorted_insertionSort recLE files).imp
      (fun hab => by
        rcases hab with h | ⟨he, _⟩
        · exact pyStrLt_le h
        · exact he ▸ pyStrLe_refl _)
  · intro r
    by_cases h1 : r.2.1 = "[Binary file]"
    · exact ⟨"*This is a binary file and cannot be displayed.*\n\n",
        by simp only [sectionFor, sectionHead, if_pos h1, String.append_assoc,
          Bool.false_eq_true, if_false],
        Or.inl ⟨h1, rfl⟩⟩
    · by_cases h2 : pyStartsWith r.2.1 "[Error reading file:" = true
      · exact ⟨"*" ++ r.2.1 ++ "*\n\n",
          by simp only [sectionFor, sectionHead, if_neg h1, if_pos h2,
            String.append_assoc, Bool.false_eq_true, if_false],
          Or.inr (Or.inl ⟨h1, h2, rfl⟩)⟩
      · have h2' : pyStartsWith r.2.1 "[Error reading file:" = false := by
          simpa using h2
        by_cases h3 : pyStripEmpty r.2.1 = true
        · exact ⟨"*This file is empty.*\n\n",
            by simp only [sectionFor, sectionHead, if_neg h1, if_neg h2,
              if_pos h3, String.append_assoc, Bool.false_eq_true, if_false],
            Or.inr (Or.inr (Or.inl ⟨h1, h2', h3, rfl⟩))⟩
        · have h3' : pyStripEmpty r.2.1 = false := by simpa using h3
          exact ⟨"```" ++ get_file_extension_for_markdown r.1 ++ "\n" ++ r.2.1
              ++ "\n```\n\n",
            by simp only [sectionFor, sectionHead, if_neg h1, if_neg h2,
              if_neg h3, String.append_assoc, Bool.false_eq_true, if_false],
            Or.inr (Or.inr (Or.inr ⟨h1, h2', h3', rfl⟩))⟩
  · intro p h
    unfold relPathStr
    rw [if_neg (by simp [h])]

theorem generate_markdown_sections_witness :
    relPathStr ["base"] ["other", "f.txt"] = pathStr ["other", "f.txt"]
    ∧ generate_markdown [(["base", "f.txt"], "hi", ([] : List (String × Nat)))]
        ["base"] EntryList.nil false false
      = mdPreamble 1 ["base"]
          ++ concatSections
              ([(["base", "f.txt"], "hi", ([] : List (String × Nat)))].map
                (sectionFor ["base"] false)) := by
  have h := generate_markdown_sections
    [(["base", "f.txt"], "hi", ([] : List (String × Nat)))] ["base"] EntryList.nil
  refine ⟨h.2.2.2.2 ["other", "f.txt"] (by decide), ?_⟩
  have h1 := h.1
  simpa using h1

/-- C8: the tree walk on root `X` containing directory `A` (with `a.txt`) and
file `b.txt` lists `A` before `b.txt` and nests `a.txt` one level under `A`
with the last-sibling connector; every level is listed in the sorted order
(directories before files, ties by lowercased name), the last-sibling
connector is used exactly for the final entry of a level, and recursion into
a directory extends the prefix with the last/non-last indentation. -/
theorem generate_tree_ordering :
    generate_tree "X" (elist [Entry.dir "A" (elist [Entry.file "a.txt" ndOk]),
        Entry.file "b.txt" ndOk])
      = "X\n├── A\n│   └── a.txt\n└── b.txt"
    ∧ (∀ cs : EntryList, (levelEntries cs).Pairwise entLE)
    ∧ (∀ (n : String) (node : FileNode) (pre : String),
        renderLevel [Entry.file n node] pre = [pre ++ "└── " ++ n])
    ∧ (∀ (n : String) (cs : EntryList) (pre : String),
        renderLevel [Entry.dir n cs] pre
          = (pre ++ "└── " ++ n) :: treeWalk cs (pre ++ "    "))
    ∧ (∀ (n : String) (node : FileNode) (e2 : Entry) (rest : List Entry)
          (pre : String),
        renderLevel (Entry.file n node :: e2 :: rest) pre
          = (pre ++ "├── " ++ n) :: renderLevel (e2 :: rest) pre)
    ∧ (∀ (n : String) (cs : EntryList) (e2 : Entry) (rest : List Entry)
          (pre : String),
        renderLevel (Entry.dir n cs :: e2 :: rest) pre
          = (pre ++ "├── " ++ n)
              :: (treeWalk cs (pre ++ "│   ") ++ renderLevel (e2 :: rest) pre)) := by
  refine ⟨?_, fun cs => List.sorted_insertionSort entLE _,
    fun n node pre => by simp [renderLevel],
    fun n cs pre => by simp [renderLevel],
    fun n node e2 rest pre => by simp [renderLevel],
    fun n cs e2 rest pre => by simp [renderLevel]⟩
  simp [generate_tree, treeWalk, renderLevel, levelEntries, elist,
    EntryList.toList, Entry.name, Entry.isFile, SKIP_DIRS, entLE, pyLower,
    asciiLower, joinLines]

/-- C10: `scan_directory` matches the skip set against every component of the
full path including the scanned root's own components — a root whose path
contains a skip-set name yields no records at all — while `generate_tree`
filters by entry name only at each level and still lists the files under such
a root. -/
theorem root_path_skip_component :
    (∀ (rootPath : List String) (entries : EntryList) (tc : TokenCounter)
        (so : Bool) (s : String), s ∈ SKIP_DIRS → s ∈ rootPath →
        scan_directory rootPath entries tc so = [])
    ∧ generate_tree ".env" (elist [Entry.file "a.txt" ndOk])
        = ".env\n└── a.txt" := by
  constructor
  · intro rootPath entries tc so s hs hroot
    rw [scan_directory_eq]
    have hnil : (rglobFiles rootPath entries).filter (fun pf => !skipHit pf.1)
        = [] := by
      rw [List.filter_eq_nil_iff]
      intro pf hpf
      rcases rglobFiles_prefix entries rootPath pf hpf with ⟨rest, hrest⟩
      have hmem : s ∈ pf.1 := hrest ▸ List.mem_append_left rest hroot
      simp [skipHit_true_of_mem hs hmem]
    rw [hnil]
    rfl
  · simp [generate_tree, treeWalk, renderLevel, levelEntries, elist,
      EntryList.toList, Entry.name, Entry.isFile, SKIP_DIRS, entLE, pyLower,
      asciiLower, joinLines]

theorem root_path_skip_component_witness :
    scan_directory [".env"] (elist [Entry.file "a.txt" ndOk]) tc0 false = [] :=
  root_path_skip_component.1 [".env"] (elist [Entry.file "a.txt" ndOk]) tc0
    false ".env" (by decide) (by decide)

theorem recLE_iff_of_ne {a b : ScanRecord} (h : pathStr a.1 ≠ pathStr b.1) :
    recLE a b ↔ pyStrLt (pathStr a.1) (pathStr b.1) = true := by
  unfold recLE
  constructor
  · rintro (hlt | ⟨heq, _⟩)
    · exact hlt
    · exact absurd heq h
  · exact fun hlt => Or.inl hlt

theorem orderedInsert_fst_congr (a b : ScanRecord) (hab : a.1 = b.1) :
    ∀ (s t : List ScanRecord),
      s.map Prod.fst = t.map Prod.fst →
      (∀ x ∈ s, pathStr x.1 ≠ pathStr a.1) →
      (List.orderedInsert recLE a s).map Prod.fst
        = (List.orderedInsert recLE b t).map Prod.fst
  | [], t, hmap, _ => by
      cases t with
      | nil => simp [hab]
      | cons y t' => simp at hmap
  | x :: s', t, hmap, hne => by
      cases t with
      | nil => simp at hmap
      | cons y t' =>
          simp only [List.map_cons, List.cons.injEq] at hmap
          obtain ⟨hxy, hmap'⟩ := hmap
          have hab' : pathStr a.1 = pathStr b.1 := by rw [hab]
          have hxy' : pathStr x.1 = pathStr y.1 := by rw [hxy]
          have hnex : pathStr a.1 ≠ pathStr x.1 :=
            fun he => (hne x (List.mem_cons_self x s')) he.symm
          have hney : pathStr b.1 ≠ pathStr y.1 := by
            rw [← hab', ← hxy']; exact hnex
          have hiff : recLE a x ↔ recLE b y := by
            rw [recLE_iff_of_ne hnex, recLE_iff_of_ne hney, hab', hxy']
          by_cases hc : recLE a x
          · simp only [List.orderedInsert]
            rw [if_pos hc, if_pos (hiff.mp hc)]
            simp only [List.map_cons, List.cons.injEq]
            exact ⟨hab, hxy, hmap'⟩
          · simp only [List.orderedInsert]
            rw [if_neg hc, if_neg (fun h2 => hc (hiff.mpr h2))]
            simp only [List.map_cons, List.cons.injEq]
            exact ⟨hxy, orderedInsert_fst_congr a b hab s' t' hmap'
              (fun z hz => hne z (List.mem_cons_of_mem x hz))⟩

theorem insertionSort_fst_congr :
    ∀ (l m : List ScanRecord),
      l.map Prod.fst = m.map Prod.fst →
      ((l.map (fun r => pathStr r.1)).Pairwise (fun u v => u ≠ v)) →
      (List.insertionSort recLE l).map Prod.fst
        = (List.insertionSort recLE m).map Prod.fst
  | [], m, hmap, _ => by
      cases m with
      | nil => rfl
      | cons y m' => simp at hmap
  | a :: l', m, hmap, hpair => by
      cases m with
      | nil => simp at hmap
      | cons b m' =>
          simp only [List.map_cons, List.cons.injEq] at hmap
          obtain ⟨hab, hmap'⟩ := hmap
          simp only [List.map_cons, List.pairwise_cons] at hpair
          obtain ⟨hhead, htail⟩ := hpair
          simp only [List.insertionSort]
          apply orderedInsert_fst_congr a b hab
          · exact insertionSort_fst_congr l' m' hmap' htail
          · intro x hx
            have hx' : x ∈ l' := (List.perm_insertionSort recLE l').mem_iff.mp hx
            have := hhead (pathStr x.1) (List.mem_map_of_mem _ hx')
            exact fun he => this he.symm

/-- C7: a structure-only scan and a default-mode scan of the same tree render
the same relative-path section headers in the same order (assuming the
discovered files have pairwise distinct path strings, as they do on a real
filesystem). -/
theorem structure_only_default_same_headers (rootPath : List String)
    (entries : EntryList) (tc : TokenCounter)
    (hdist : ((((rglobFiles rootPath entries).filter
        (fun pf => !skipHit pf.1)).map (fun pf => pathStr pf.1)).Pairwise
        (fun u v => u ≠ v))) :
    sectionHeaders rootPath (scan_directory rootPath entries tc false)
      = sectionHeaders rootPath (scan_directory rootPath entries tc true) := by
  have h1 := scan_directory_eq rootPath entries tc false
  have h2 := scan_directory_eq rootPath entries tc true
  unfold sectionHeaders
  rw [h1, h2]
  set fl := (rglobFiles rootPath entries).filter (fun pf => !skipHit pf.1)
    with hfl
  have hmapeq : (fl.map (scanFile tc false)).map Prod.fst
      = (fl.map (scanFile tc true)).map Prod.fst := by
    rw [List.map_map, List.map_map]
    exact List.map_congr_left (fun pf _ => by
      simp [Function.comp, scanFile_fst])
  have hcomp : ((fun r : ScanRecord => pathStr r.1) ∘ scanFile tc false)
      = fun pf : List String × FileNode => pathStr pf.1 := by
    funext pf
    simp [Function.comp, scanFile_fst]
  have hpair : ((fl.map (scanFile tc false)).map
      (fun r => pathStr r.1)).Pairwise (fun u v => u ≠ v) := by
    rw [List.map_map, hcomp]
    exact hdist
  have hs := insertionSort_fst_congr (fl.map (scanFile tc false))
    (fl.map (scanFile tc true)) hmapeq hpair
  have hview : ∀ l : List ScanRecord,
      (List.insertionSort recLE l).map (fun r => relPathStr rootPath r.1)
        = ((List.insertionSort recLE l).map Prod.fst).map
            (relPathStr rootPath) := by
    intro l
    rw [List.map_map]
    rfl
  rw [hview, hview, hs]

theorem structure_only_default_same_headers_witness :
    sectionHeaders ["r"]
        (scan_directory ["r"]
          (elist [Entry.file "b.txt" ndOk, Entry.file "a.txt" ndOk]) tc0 false)
      = sectionHeaders ["r"]
        (scan_directory ["r"]
          (elist [Entry.file "b.txt" ndOk, Entry.file "a.txt" ndOk]) tc0 true) :=
  structure_only_default_same_headers ["r"]
    (elist [Entry.file "b.txt" ndOk, Entry.file "a.txt" ndOk]) tc0 (by decide)

set_option maxRecDepth 8192 in
/-- C9: sentinel detection in the renderer is plain string matching on the
record's content.  Both files below are classified as text and read
successfully, with genuine contents `"[Binary file]"` and
`"[Error reading file: nothing failed]"`; the scanner records those contents
(with their real metrics), and the renderer then reports the first as a
binary file and the second as a read error instead of emitting fenced
content. -/
theorem renderer_sentinel_string_matching :
    scan_directory ["r"]
        (elist [Entry.file "trick.txt" ndFakeBinary,
                Entry.file "trick2.txt" ndFakeError]) tc0 false
      = [(["r", "trick.txt"], "[Binary file]",
          [("words", 2), ("characters", 13), ("characters_no_spaces", 12),
           ("estimated_gpt_tokens", 3)]),
         (["r", "trick2.txt"], "[Error reading file: nothing failed]",
          [("words", 5), ("characters", 36), ("characters_no_spaces", 32),
           ("estimated_gpt_tokens", 9)])]
    ∧ is_text_file ["r", "trick.txt"] ndFakeBinary = true
    ∧ ndFakeBinary.read = Except.ok "[Binary file]"
    ∧ is_text_file ["r", "trick2.txt"] ndFakeError = true
    ∧ ndFakeError.read = Except.ok "[Error reading file: nothing failed]"
    ∧ generate_markdown
        (scan_directory ["r"]
          (elist [Entry.file "trick.txt" ndFakeBinary,
                  Entry.file "trick2.txt" ndFakeError]) tc0 false)
        ["r"] EntryList.nil false false
      = "# Directory Scan: r\n\n**Scanned Path:** `r`\n\n**Total Files:** 2\n\n---\n\n## 📄 trick.txt\n\n**Full Path:** `r/trick.txt`\n\n*This is a binary file and cannot be displayed.*\n\n---\n\n## 📄 trick2.txt\n\n**Full Path:** `r/trick2.txt`\n\n*[Error reading file: nothing failed]*\n\n---\n\n" := by
  refine ⟨by decide, by decide, rfl, by decide, rfl, by decide⟩
